import Mathlib

/-!
Verification of the Happy realtime voice stack (capture, playback, codec,
Gemini voice session) against its natural-language specification.

The TypeScript sources are shallowly embedded: pure numeric code becomes
functions over `ℚ`/`ℤ`/`ℕ` (JS doubles are modelled by exact rational
arithmetic; every property below is decided far from any double-rounding
boundary), byte buffers become `List ℕ`, and the stateful session/capture
code becomes explicit state-passing step functions that also emit the list
of observable callback events (status writes, data callbacks, error
callbacks).
-/

namespace Happy

/-! ## PCM codec

Source: the web capture module (`float32ToBase64PCM16`) and
`sources/realtime/audio/playback.ts` (`base64PCM16ToFloat32`). The base64
text wrapping (`btoa`/`atob`) is an exact inverse pair on byte strings and
is elided: the embedding works on the byte sequences that `btoa` receives
and that `atob` returns. -/

/-- JS `Math.max(-1, Math.min(1, s))`, the clamp applied by the encoder. -/
def clampSample (s : ℚ) : ℚ := max (-1) (min 1 s)

/-- Truncation toward zero, which is what JS `ToInt16` applies to a double
before wrapping. -/
def jsTrunc (q : ℚ) : ℤ := if q < 0 then ⌈q⌉ else ⌊q⌋

/-- Wrap an integer into signed 16-bit range modulo 2^16, as the store into
an `Int16Array` element does. -/
def toInt16 (n : ℤ) : ℤ := (n + 32768) % 65536 - 32768

/-- One sample of capture's `float32ToBase64PCM16`:
`const s = Math.max(-1, Math.min(1, float32[i])); int16[i] = s < 0 ? s * 0x8000 : s * 0x7FFF;`. -/
def encodeSample (s : ℚ) : ℤ :=
  let c := clampSample s
  toInt16 (jsTrunc (if c < 0 then c * 32768 else c * 32767))

/-- Little-endian byte pair of a stored 16-bit sample, as reading the
`Int16Array`'s underlying buffer yields it. -/
def int16ToBytes (n : ℤ) : List ℕ :=
  let u := (n % 65536).toNat
  [u % 256, u / 256]

/-- Capture's `float32ToBase64PCM16` up to the final `btoa`: clamp, scale,
store as signed 16-bit, serialize little-endian. -/
def float32ToPCM16Bytes (xs : List ℚ) : List ℕ :=
  xs.flatMap (fun s => int16ToBytes (encodeSample s))

/-- Signed 16-bit value of a little-endian byte pair, as
`new Int16Array(bytes.buffer)` reinterprets it. -/
def decodeInt16 (b0 b1 : ℕ) : ℤ :=
  let u : ℤ := (b0 % 256 : ℕ) + 256 * (b1 % 256 : ℕ)
  if u < 32768 then u else u - 65536

/-- Playback's `base64PCM16ToFloat32` after `atob`: reinterpret the byte
sequence as little-endian signed 16-bit samples and divide each by `0x8000`.
`new Int16Array(buffer)` throws on an odd byte length, hence the `Option`. -/
def pcm16BytesToFloat32 (bytes : List ℕ) : Option (List ℚ) :=
  if bytes.length % 2 = 0 then
    some (go bytes)
  else
    none
where
  go : List ℕ → List ℚ
    | b0 :: b1 :: rest => (decodeInt16 b0 b1 : ℚ) / 32768 :: go rest
    | _ => []

/-! ### Codec lemmas -/

lemma clampSample_le_one (s : ℚ) : clampSample s ≤ 1 :=
  max_le (by norm_num) (min_le_left 1 s)

lemma neg_one_le_clampSample (s : ℚ) : -1 ≤ clampSample s := le_max_left _ _

lemma clampSample_eq_self {s : ℚ} (h1 : -1 ≤ s) (h2 : s ≤ 1) :
    clampSample s = s := by
  unfold clampSample
  rw [min_eq_right h2, max_eq_right h1]

lemma clampSample_idem (s : ℚ) : clampSample (clampSample s) = clampSample s :=
  clampSample_eq_self (neg_one_le_clampSample s) (clampSample_le_one s)

lemma toInt16_eq_self {n : ℤ} (h1 : -32768 ≤ n) (h2 : n ≤ 32767) :
    toInt16 n = n := by
  unfold toInt16
  omega

/-- The scaled-and-truncated value of a clamped sample, before the 16-bit
store; always within signed 16-bit range. -/
lemma rawScale_range {c : ℚ} (h1 : -1 ≤ c) (h2 : c ≤ 1) :
    -32768 ≤ jsTrunc (if c < 0 then c * 32768 else c * 32767) ∧
      jsTrunc (if c < 0 then c * 32768 else c * 32767) ≤ 32767 := by
  by_cases hc : c < 0
  · have hv1 : (-32768 : ℚ) ≤ c * 32768 := by nlinarith
    have hv2 : c * 32768 < 0 := by nlinarith
    rw [if_pos hc]
    unfold jsTrunc
    rw [if_pos hv2]
    constructor
    · have : ⌈(-32768 : ℚ)⌉ ≤ ⌈c * 32768⌉ := Int.ceil_le_ceil hv1
      simpa using this
    · have h0 : ⌈c * 32768⌉ ≤ 0 := Int.ceil_le.mpr (by exact_mod_cast hv2.le)
      omega
  · push_neg at hc
    have hv1 : (0 : ℚ) ≤ c * 32767 := by nlinarith
    have hv2 : c * 32767 ≤ 32767 := by nlinarith
    rw [if_neg (not_lt.mpr hc)]
    unfold jsTrunc
    rw [if_neg (not_lt.mpr hv1)]
    constructor
    · have h0 : (0 : ℤ) ≤ ⌊c * 32767⌋ := Int.floor_nonneg.mpr hv1
      omega
    · have : ⌊c * 32767⌋ ≤ ⌊(32767 : ℚ)⌋ := Int.floor_le_floor hv2
      simpa using this

lemma encodeSample_range (s : ℚ) :
    -32768 ≤ encodeSample s ∧ encodeSample s ≤ 32767 := by
  unfold encodeSample
  have h := rawScale_range (neg_one_le_clampSample s) (clampSample_le_one s)
  rw [toInt16_eq_self h.1 h.2]
  exact h

/-- Byte-level round trip: decoding the little-endian byte pair written for
an in-range 16-bit value recovers that value. -/
lemma decodeInt16_int16ToBytes {n : ℤ} (h1 : -32768 ≤ n) (h2 : n ≤ 32767) :
    decodeInt16 ((n % 65536).toNat % 256) ((n % 65536).toNat / 256) = n := by
  dsimp only [decodeInt16]
  split <;> omega

/-- Quantization error of one encoded sample: strictly below two steps. -/
lemma encodeSample_error {s : ℚ} (h1 : -1 ≤ s) (h2 : s ≤ 1) :
    |(encodeSample s : ℚ) / 32768 - s| < 2 / 32768 := by
  unfold encodeSample
  rw [clampSample_eq_self h1 h2]
  have hr := rawScale_range h1 h2
  rw [toInt16_eq_self hr.1 hr.2]
  by_cases hc : s < 0
  · rw [if_pos hc]
    have hv2 : s * 32768 < 0 := by nlinarith
    unfold jsTrunc
    rw [if_pos hv2]
    have hle : s * 32768 ≤ (⌈s * 32768⌉ : ℚ) := Int.le_ceil _
    have hlt : (⌈s * 32768⌉ : ℚ) < s * 32768 + 1 := Int.ceil_lt_add_one _
    rw [abs_lt]
    constructor <;> [nlinarith; nlinarith]
  · push_neg at hc
    rw [if_neg (not_lt.mpr hc)]
    have hv1 : (0 : ℚ) ≤ s * 32767 := by nlinarith
    unfold jsTrunc
    rw [if_neg (not_lt.mpr hv1)]
    have hle : (⌊s * 32767⌋ : ℚ) ≤ s * 32767 := Int.floor_le _
    have hlt : s * 32767 - 1 < (⌊s * 32767⌋ : ℚ) := Int.sub_one_lt_floor _
    rw [abs_lt]
    constructor <;> [nlinarith; nlinarith]

/-- C5, counterexample: At `s = 9/10` the round trip of the claim
(encode by `float32ToBase64PCM16`, decode by `base64PCM16ToFloat32`) yields
`14745/16384`, which differs from `9/10` by `3/81920 > 1/32768`: the claimed
one-quantization-step bound is false. -/
theorem C5_counterexample :
    pcm16BytesToFloat32 (float32ToPCM16Bytes [9/10]) = some [14745/16384] ∧
      ¬ |(14745 : ℚ)/16384 - 9/10| ≤ 1/32768 := by
  constructor
  · have h : encodeSample (9/10) = 29490 := by
      norm_num [encodeSample, clampSample, jsTrunc, toInt16, min_def, max_def]
    simp [float32ToPCM16Bytes, int16ToBytes, h, pcm16BytesToFloat32,
      pcm16BytesToFloat32.go, decodeInt16]
    norm_num
  · rw [abs_le]
    norm_num

/-- C5, amended: For every sample `s ∈ [-1,1]`, decoding the transport
encoding of `s` (clamp, scale by 32768 for negative / 32767 for
non-negative, truncate, serialize signed 16-bit little-endian; decode by
dividing the 16-bit value by 32768) yields a value within **two**
quantization steps of `s`: `|decoded - s| < 2/32768`. (One step does not
suffice because the encoder scales non-negative samples by 32767 while the
decoder divides by 32768.) -/
theorem C5_roundtrip_amended (s : ℚ) (h1 : -1 ≤ s) (h2 : s ≤ 1) :
    ∃ v : ℚ, pcm16BytesToFloat32 (float32ToPCM16Bytes [s]) = some [v] ∧
      |v - s| < 2 / 32768 := by
  refine ⟨(encodeSample s : ℚ) / 32768, ?_, encodeSample_error h1 h2⟩
  have hr := encodeSample_range s
  have hb := decodeInt16_int16ToBytes hr.1 hr.2
  simp [float32ToPCM16Bytes, int16ToBytes, pcm16BytesToFloat32,
    pcm16BytesToFloat32.go, hb]

/-- Witness for `C5_roundtrip_amended` at the concrete sample `s = 9/10`. -/
theorem C5_roundtrip_amended_witness :
    ∃ v : ℚ, pcm16BytesToFloat32 (float32ToPCM16Bytes [9/10]) = some [v] ∧
      |v - 9/10| < 2 / 32768 :=
  C5_roundtrip_amended (9/10) (by norm_num) (by norm_num)

/-- C9: The transport encoder is total over arbitrary finite samples
(the Lean embedding is a total function, as the source has no throwing
path): every emitted 16-bit value lies in `[-32768, 32767]`, and an
out-of-range sample encodes identically to its clamped value. -/
theorem C9_encoder_total_clamps (s : ℚ) :
    (-32768 ≤ encodeSample s ∧ encodeSample s ≤ 32767) ∧
      encodeSample s = encodeSample (clampSample s) := by
  refine ⟨encodeSample_range s, ?_⟩
  unfold encodeSample
  rw [clampSample_idem]

/-! ## WAV container framing

Source: `createWavHeader` in the native playback module. `DataView`
writes are modelled byte by byte (`setUint32`/`setUint16` wrap their value
modulo 2^32 / 2^16 before serializing). -/

/-- Constant `OUTPUT_SAMPLE_RATE` of the native playback module. -/
def OUTPUT_SAMPLE_RATE : ℕ := 24000

/-- Constant `BITS_PER_SAMPLE` of the native playback module. -/
def BITS_PER_SAMPLE : ℕ := 16

/-- Constant `NUM_CHANNELS` of the native playback module. -/
def NUM_CHANNELS : ℕ := 1

/-- Model of `DataView.setUint32(_, n, true)`: little-endian bytes of `n mod 2^32`. -/
def u32le (n : ℕ) : List ℕ :=
  let m := n % 4294967296
  [m % 256, m / 256 % 256, m / 65536 % 256, m / 16777216 % 256]

/-- Model of `DataView.setUint32(_, n, false)`: big-endian bytes of `n mod 2^32`. -/
def u32be (n : ℕ) : List ℕ := (u32le n).reverse

/-- Model of `DataView.setUint16(_, n, true)`: little-endian bytes of `n mod 2^16`. -/
def u16le (n : ℕ) : List ℕ :=
  let m := n % 65536
  [m % 256, m / 256]

/-- Source `createWavHeader(dataLength)`: the 44-byte RIFF/WAVE header, field for
field in the source's write order (offsets 0,4,8,12,16,20,22,24,28,32,34,
36,40). -/
def createWavHeader (dataLength : ℕ) : List ℕ :=
  let byteRate := OUTPUT_SAMPLE_RATE * NUM_CHANNELS * (BITS_PER_SAMPLE / 8)
  let blockAlign := NUM_CHANNELS * (BITS_PER_SAMPLE / 8)
  u32be 0x52494646 ++ u32le (36 + dataLength) ++ u32be 0x57415645 ++
    u32be 0x666D7420 ++ u32le 16 ++ u16le 1 ++ u16le NUM_CHANNELS ++
    u32le OUTPUT_SAMPLE_RATE ++ u32le byteRate ++ u16le blockAlign ++
    u16le BITS_PER_SAMPLE ++ u32be 0x64617461 ++ u32le dataLength

/-- Little-endian 32-bit read at a byte offset, for inspecting the header. -/
def readU32le (bytes : List ℕ) (off : ℕ) : ℕ :=
  bytes.getD off 0 + 256 * bytes.getD (off + 1) 0 +
    65536 * bytes.getD (off + 2) 0 + 16777216 * bytes.getD (off + 3) 0

/-- C6, counterexample: For the empty payload the declared total-size
field (the RIFF chunk size at offset 4) is `36`, not header length (44) +
payload length (0): the claim's equation fails. -/
theorem C6_counterexample :
    readU32le (createWavHeader 0) 4 = 36 ∧ readU32le (createWavHeader 0) 4 ≠ 44 + 0 := by
  constructor <;> decide

/-- C6, amended: For every payload length, the header is 44 bytes and
its declared total-size field (the RIFF chunk size at offset 4) equals
header length + payload length − 8, i.e. `36 + dataLength` (mod 2^32): the
RIFF size field excludes the 8-byte `RIFF` tag-and-size prefix. -/
theorem C6_wavHeader_size_field (n : ℕ) :
    (createWavHeader n).length = 44 ∧
      readU32le (createWavHeader n) 4 = (36 + n) % 4294967296 := by
  constructor
  · simp [createWavHeader, u32le, u32be, u16le]
  · simp only [createWavHeader, u32le, u32be, u16le, readU32le,
      OUTPUT_SAMPLE_RATE, BITS_PER_SAMPLE, NUM_CHANNELS, List.reverse_cons,
      List.reverse_nil, List.nil_append, List.cons_append, List.append_assoc,
      List.getD_cons_zero, List.getD_cons_succ]
    omega

/-! ## Resampler

Source: `resample` in `sources/realtime/audio/playback.ts` (the identical
function also appears in the web capture module). Samples are `ℚ`; the
sample rates are naturals. JS computes with IEEE-754 binary64 doubles, so
every arithmetic operation rounds its exact result to 53 significand bits;
this rounding is decisive (e.g. `240 / (24000/44100)` is `440.99…94`, not
`441`), so the embedding makes it explicit: `fl` rounds a rational to the
nearest binary64 value (round to nearest, ties to even; the magnitudes
reached here are deep inside the normal range, so neither overflow nor
subnormals arise), `fl32` likewise to binary32 for the `Float32Array`
store. Integer operands (rates, lengths, indices) are exactly
representable and need no rounding. The model is meaningful for the
positive rates the callers pass (`new Float32Array(Infinity)` would throw
for `targetSampleRate = 0`, a case no caller reaches). -/

/-- Round to nearest integer, ties to even — the rounding of the
significand IEEE-754 round-to-nearest performs. -/
def roundEven (x : ℚ) : ℤ :=
  if x - ⌊x⌋ < 1/2 then ⌊x⌋
  else if 1/2 < x - ⌊x⌋ then ⌊x⌋ + 1
  else if ⌊x⌋ % 2 = 0 then ⌊x⌋ else ⌊x⌋ + 1

/-- Round a rational to the nearest floating-point value with a `p`-bit
fractional significand (binary64: `p = 52`; binary32: `p = 23`), for the
normal range: scale into `[2^p, 2^(p+1))`, round to nearest-even, scale
back. -/
def flPrec (p : ℕ) (q : ℚ) : ℚ :=
  if q = 0 then 0
  else
    let e : ℤ := Int.log 2 |q|
    (roundEven (q * 2 ^ ((p : ℤ) - e)) : ℚ) / 2 ^ ((p : ℤ) - e)

/-- Rounding of one IEEE-754 binary64 (JS number) operation. -/
def fl : ℚ → ℚ := flPrec 52

/-- Rounding of a store into a `Float32Array` element (binary32). -/
def fl32 : ℚ → ℚ := flPrec 23

/-- Source `resample(input, sourceSampleRate, targetSampleRate)`: identity
fast path when the rates agree, else linear interpolation at virtual
source position `i * ratio`, with the upper neighbor clamped to the last
index; every double operation rounds through `fl` and the store into the
output `Float32Array` through `fl32`. -/
def resample (input : List ℚ) (sourceSampleRate targetSampleRate : ℕ) : List ℚ :=
  if sourceSampleRate = targetSampleRate then input
  else
    let ratio : ℚ := fl ((sourceSampleRate : ℚ) / (targetSampleRate : ℚ))
    let outputLength := (⌊fl ((input.length : ℚ) / ratio)⌋).toNat
    (List.range outputLength).map (fun (i : ℕ) =>
      let srcIndex : ℚ := fl ((i : ℚ) * ratio)
      let low := (⌊srcIndex⌋).toNat
      let high := min (low + 1) (input.length - 1)
      let frac : ℚ := fl (srcIndex - (low : ℚ))
      fl32 (fl (fl (input.getD low 0 * fl (1 - frac)) + fl (input.getD high 0 * frac))))

/-! ### Rounding lemmas -/

lemma abs_roundEven_sub (x : ℚ) : |(roundEven x : ℚ) - x| ≤ 1/2 := by
  have h1 := Int.floor_le x
  have h2 := Int.lt_floor_add_one x
  unfold roundEven
  split_ifs with ha hb hc
  all_goals rw [abs_le]; push_cast; constructor <;> linarith

/-- Standard relative error of one rounding: `|fl q - q| ≤ |q| · 2^-(p+1)`. -/
lemma flPrec_rel_error (p : ℕ) (q : ℚ) (hq : q ≠ 0) :
    |flPrec p q - q| ≤ |q| / 2 ^ (p + 1) := by
  unfold flPrec
  rw [if_neg hq]
  have habs : (0:ℚ) < |q| := abs_pos.mpr hq
  set e : ℤ := Int.log 2 |q| with he
  have hlog : (2:ℚ) ^ e ≤ |q| := by
    have h := @Int.zpow_log_le_self ℚ _ _ 2 |q| (by norm_num) habs
    rw [he]
    exact_mod_cast h
  have hs : (0:ℚ) < 2 ^ ((p:ℤ) - e) := zpow_pos (by norm_num) _
  have key : (roundEven (q * 2 ^ ((p:ℤ) - e)) : ℚ) / 2 ^ ((p:ℤ) - e) - q
      = ((roundEven (q * 2 ^ ((p:ℤ) - e)) : ℚ) - q * 2 ^ ((p:ℤ) - e)) / 2 ^ ((p:ℤ) - e) := by
    rw [sub_div, mul_div_cancel_right₀ _ hs.ne']
  rw [key, abs_div, abs_of_pos hs, div_le_iff₀ hs]
  have h1 : |(roundEven (q * 2 ^ ((p:ℤ) - e)) : ℚ) - q * 2 ^ ((p:ℤ) - e)| ≤ 1/2 :=
    abs_roundEven_sub _
  have hsplit : (2:ℚ) ^ ((p:ℤ) - e) = 2 ^ (p:ℤ) / 2 ^ e :=
    zpow_sub₀ (by norm_num) _ _
  have hnat : ((2:ℚ) ^ (p:ℤ)) = 2 ^ p := zpow_natCast 2 p
  have hP : (0:ℚ) < 2 ^ p := by positivity
  have hep : (0:ℚ) < 2 ^ e := zpow_pos (by norm_num) _
  calc |(roundEven (q * 2 ^ ((p:ℤ) - e)) : ℚ) - q * 2 ^ ((p:ℤ) - e)| ≤ 1/2 := h1
    _ ≤ |q| / 2 ^ (p + 1) * 2 ^ ((p:ℤ) - e) := by
        rw [hsplit, hnat, div_mul_div_comm, le_div_iff₀ (by positivity)]
        have hpow : (2:ℚ) ^ (p + 1) = 2 * 2 ^ p := by ring
        rw [hpow]
        nlinarith [mul_le_mul_of_nonneg_right hlog hP.le]

lemma fl_rel_error (q : ℚ) (hq : q ≠ 0) : |fl q - q| ≤ |q| / 2 ^ 53 :=
  flPrec_rel_error 52 q hq

lemma fl_zero : fl 0 = 0 := by
  unfold fl flPrec
  rw [if_pos rfl]

lemma fl_nonneg {q : ℚ} (h : 0 ≤ q) : 0 ≤ fl q := by
  rcases eq_or_lt_of_le h with heq | hlt
  · rw [← heq, fl_zero]
  · have herr := fl_rel_error q hlt.ne'
    rw [abs_of_pos hlt, abs_le] at herr
    have h53 : (0:ℚ) < 2 ^ 53 := by positivity
    have : q / 2 ^ 53 < q := by
      rw [div_lt_iff₀ h53]
      nlinarith
    linarith [herr.1]

lemma fl_pos {q : ℚ} (h : 0 < q) : 0 < fl q := by
  have herr := fl_rel_error q h.ne'
  rw [abs_of_pos h, abs_le] at herr
  have h53 : (0:ℚ) < 2 ^ 53 := by positivity
  have : q / 2 ^ 53 < q := by
    rw [div_lt_iff₀ h53]
    nlinarith
  linarith [herr.1]

/-- Evaluation rule: with the binade of `q` exhibited (`2^e ≤ |q| < 2^(e+1)`),
`flPrec` is the rounded scaled significand. -/
lemma flPrec_eq_scaled (p : ℕ) {q : ℚ} (e : ℤ) (hq : q ≠ 0)
    (h1 : (2:ℚ) ^ e ≤ |q|) (h2 : |q| < 2 ^ (e + 1)) :
    flPrec p q = (roundEven (q * 2 ^ ((p : ℤ) - e)) : ℚ) / 2 ^ ((p : ℤ) - e) := by
  have habs : (0:ℚ) < |q| := abs_pos.mpr hq
  have hlogeq : Int.log 2 |q| = e := by
    set L := Int.log 2 |q| with hL
    have hL1 : (2:ℚ) ^ L ≤ |q| := by
      have h := @Int.zpow_log_le_self ℚ _ _ 2 |q| (by norm_num) habs
      rw [hL]
      exact_mod_cast h
    have hL2 : |q| < (2:ℚ) ^ (L + 1) := by
      have h := @Int.lt_zpow_succ_log_self ℚ _ _ 2 (by norm_num) |q|
      rw [hL]
      exact_mod_cast h
    rcases lt_trichotomy L e with hlt | heq | hgt
    · exfalso
      have hle : L + 1 ≤ e := by omega
      have : (2:ℚ) ^ (L + 1) ≤ 2 ^ e := zpow_le_zpow_right₀ (by norm_num) hle
      linarith
    · exact heq
    · exfalso
      have hle : e + 1 ≤ L := by omega
      have : (2:ℚ) ^ (e + 1) ≤ 2 ^ L := zpow_le_zpow_right₀ (by norm_num) hle
      linarith
  unfold flPrec
  rw [if_neg hq]
  rw [hlogeq]

lemma fl_eq_scaled {q : ℚ} (e : ℤ) (hq : q ≠ 0)
    (h1 : (2:ℚ) ^ e ≤ |q|) (h2 : |q| < 2 ^ (e + 1)) :
    fl q = (roundEven (q * 2 ^ ((52 : ℤ) - e)) : ℚ) / 2 ^ ((52 : ℤ) - e) :=
  flPrec_eq_scaled 52 e hq h1 h2

/-- Combined error of the two rounded divisions of the length computation,
`fl (A / fl R)` against the exact `A / R`: at most `1/2` when the exact
quotient is at most `2^50`. -/
lemma fl_div_fl_err {A R : ℚ} (hA : 0 ≤ A) (hR : 0 < R)
    (hsize : A / R ≤ 2 ^ 50) :
    |fl (A / fl R) - A / R| ≤ 1/2 := by
  have hr1 : 0 < fl R := fl_pos hR
  rcases eq_or_lt_of_le hA with heq | hApos
  · rw [← heq]
    simp [fl_zero]
  · have hRerr := fl_rel_error R hR.ne'
    rw [abs_of_pos hR, abs_le] at hRerr
    set r1 := fl R with hr1def
    have hG : 0 < A / r1 := div_pos hApos hr1
    have hGerr := fl_rel_error (A / r1) hG.ne'
    rw [abs_of_pos hG, abs_le] at hGerr
    set d := fl (A / r1) with hddef
    set E := A / R with hEdef
    have hEpos : 0 < E := div_pos hApos hR
    have hGr1 : (A / r1) * r1 = A := div_mul_cancel₀ A hr1.ne'
    have hER : E * R = A := div_mul_cancel₀ A hR.ne'
    have h53 : (0:ℚ) < 2 ^ 53 := by positivity
    have hr1lo : R * (1 - 1/2^53) ≤ r1 := by
      have := hRerr.1
      nlinarith
    have hr1hi : r1 ≤ R * (1 + 1/2^53) := by
      have := hRerr.2
      nlinarith
    have hGlo : E * (1 - 1/2^53) ≤ A / r1 := by
      nlinarith [hGr1, hER, hr1hi, hG.le, hEpos.le, hR.le]
    have hGhi : A / r1 ≤ E * (1 + 2/2^53) := by
      nlinarith [hGr1, hER, hr1lo, hG.le, hEpos.le, hR.le]
    have hdhi : d ≤ E * (1 + 4/2^53) := by
      nlinarith [hGhi, hGerr.2, hEpos.le, hG.le]
    have hdlo : E * (1 - 2/2^53) ≤ d := by
      nlinarith [hGlo, hGerr.1, hEpos.le, hG.le]
    rw [abs_le]
    constructor
    · nlinarith [hsize, hEpos.le, hdlo]
    · nlinarith [hsize, hEpos.le, hdhi]

/-- Values within `1/2` of each other have floors within one. -/
lemma floor_within_one {d E : ℚ} (h : |d - E| ≤ 1/2) :
    ⌊E⌋ - 1 ≤ ⌊d⌋ ∧ ⌊d⌋ ≤ ⌊E⌋ + 1 := by
  rw [abs_le] at h
  have h1 := Int.floor_le E
  have h2 := Int.lt_floor_add_one E
  constructor
  · apply Int.le_floor.mpr
    push_cast
    linarith
  · have hlt : ⌊d⌋ < ⌊E⌋ + 2 := by
      apply Int.floor_lt.mpr
      push_cast
      linarith
    omega

/-- The double nearest to `24000/44100`: one ulp above the exact ratio. -/
lemma ratio_24000_44100 :
    fl (((24000 : ℕ) : ℚ) / ((44100 : ℕ) : ℚ)) = 4901877145437275 / 9007199254740992 := by
  have hq : (((24000 : ℕ) : ℚ) / ((44100 : ℕ) : ℚ)) = 24000/44100 := by norm_num
  rw [hq]
  rw [fl_eq_scaled (-1) (by norm_num)
    (by rw [abs_of_pos (by norm_num)]; norm_num [zpow_neg])
    (by rw [abs_of_pos (by norm_num)]; norm_num)]
  have hexp : ((52 : ℤ) - (-1)) = 53 := by norm_num
  rw [hexp]
  have hpow : (2:ℚ) ^ (53:ℤ) = 9007199254740992 := by
    rw [show ((53:ℤ)) = ((53:ℕ):ℤ) by norm_num, zpow_natCast]
    norm_num
  rw [hpow]
  have harg : (24000/44100 : ℚ) * 9007199254740992 = 720575940379279360/147 := by norm_num
  rw [harg]
  have hfl : ⌊(720575940379279360/147 : ℚ)⌋ = 4901877145437274 := by norm_num
  unfold roundEven
  rw [hfl]
  norm_num

/-- The double `240 / ratio` for that rounded ratio: `440.99999999999994`,
strictly below the exact `441`. -/
lemma len240_div_ratio :
    fl ((240 : ℚ) / (4901877145437275 / 9007199254740992)) = 7758154045587455 / 17592186044416 := by
  have hq : ((240 : ℚ) / (4901877145437275 / 9007199254740992)) =
      432345564227567616/980375429087455 := by
    norm_num
  rw [hq]
  rw [fl_eq_scaled 8 (by norm_num)
    (by rw [abs_of_pos (by norm_num)]; norm_num)
    (by rw [abs_of_pos (by norm_num)]; norm_num)]
  have hexp : ((52 : ℤ) - 8) = 44 := by norm_num
  rw [hexp]
  have hpow : (2:ℚ) ^ (44:ℤ) = 17592186044416 := by
    rw [show ((44:ℤ)) = ((44:ℕ):ℤ) by norm_num, zpow_natCast]
    norm_num
  rw [hpow]
  have harg : (432345564227567616/980375429087455 : ℚ) * 17592186044416 =
      7605903601369376408980219232256/980375429087455 := by norm_num
  rw [harg]
  have hfl : ⌊(7605903601369376408980219232256/980375429087455 : ℚ)⌋ = 7758154045587455 := by
    norm_num
  unfold roundEven
  rw [hfl]
  norm_num

/-- C8, counterexample: 240 samples resampled from 24000 Hz to 44100 Hz
(the playback path on a 44.1 kHz device) produce 440 output samples, while
`⌊len · b / a⌋ = ⌊441⌋ = 441`: the double computation
`240 / (24000/44100) = 440.99999999999994` floors one short of the exact
value, refuting the claimed length equality. -/
theorem C8_counterexample :
    (resample (List.replicate 240 0) 24000 44100).length ≠
      (⌊((List.replicate 240 (0:ℚ)).length : ℚ) * 44100 / 24000⌋).toNat ∧
    (resample (List.replicate 240 0) 24000 44100).length = 440 ∧
    (⌊((List.replicate 240 (0:ℚ)).length : ℚ) * 44100 / 24000⌋).toNat = 441 := by
  have hlen : (((List.replicate 240 (0:ℚ)).length : ℚ)) = 240 := by
    rw [List.length_replicate]
    norm_num
  have hres : (resample (List.replicate 240 0) 24000 44100).length = 440 := by
    unfold resample
    rw [if_neg (by norm_num : (24000 : ℕ) ≠ 44100)]
    dsimp only
    rw [List.length_map, List.length_range]
    rw [ratio_24000_44100, hlen, len240_div_ratio]
    have : ⌊(7758154045587455 / 17592186044416 : ℚ)⌋ = 440 := by norm_num
    rw [this]
    rfl
  have hexact : (⌊((List.replicate 240 (0:ℚ)).length : ℚ) * 44100 / 24000⌋).toNat = 441 := by
    rw [hlen]
    norm_num
    rfl
  refine ⟨?_, hres, hexact⟩
  rw [hres, hexact]
  norm_num

/-- C8, amended: for positive rates `a ≠ b` the output length is the
double-arithmetic value `⌊fl(len / fl(a/b))⌋`, which is within one of the
exact `⌊len·b/a⌋` (equality can fail: see the counterexample); when
`a = b` the input is returned unchanged; an empty input yields an empty
output. The size bound keeps the exact quotient within `2^50`, far above
any real audio buffer. -/
theorem C8_resample_length (input : List ℚ) (a b : ℕ)
    (ha : 0 < a) (hb : 0 < b)
    (hsize : ((input.length : ℚ) * b) / a ≤ 2 ^ 50) :
    (a ≠ b →
      (resample input a b).length =
        (⌊fl ((input.length : ℚ) / fl ((a : ℚ) / b))⌋).toNat ∧
      ⌊((input.length : ℚ) * b) / a⌋ - 1 ≤ ((resample input a b).length : ℤ) ∧
      ((resample input a b).length : ℤ) ≤ ⌊((input.length : ℚ) * b) / a⌋ + 1) ∧
    (a = b → resample input a b = input) ∧
    (input = [] → resample input a b = []) := by
  have haq : (0:ℚ) < a := by exact_mod_cast ha
  have hbq : (0:ℚ) < b := by exact_mod_cast hb
  have hR : (0:ℚ) < (a:ℚ)/b := div_pos haq hbq
  have hA : (0:ℚ) ≤ (input.length : ℚ) := by positivity
  have hconv : (input.length : ℚ) / ((a:ℚ)/b) = ((input.length : ℚ) * b) / a :=
    div_div_eq_mul_div _ _ _
  refine ⟨fun hne => ?_, fun heq => by simp [resample, heq], fun hemp => ?_⟩
  · have hlen : (resample input a b).length =
        (⌊fl ((input.length : ℚ) / fl ((a : ℚ) / b))⌋).toNat := by
      unfold resample
      rw [if_neg hne]
      dsimp only
      rw [List.length_map, List.length_range]
    have herr : |fl ((input.length : ℚ) / fl ((a:ℚ)/b)) - (input.length : ℚ)/((a:ℚ)/b)| ≤ 1/2 :=
      fl_div_fl_err hA hR (by rw [hconv]; exact hsize)
    have hfw := floor_within_one herr
    rw [hconv] at hfw
    have hd : (0:ℚ) ≤ fl ((input.length : ℚ) / fl ((a:ℚ)/b)) :=
      fl_nonneg (div_nonneg hA (fl_pos hR).le)
    have hfl0 : (0:ℤ) ≤ ⌊fl ((input.length : ℚ) / fl ((a:ℚ)/b))⌋ := Int.floor_nonneg.mpr hd
    refine ⟨hlen, ?_, ?_⟩
    · rw [hlen, Int.toNat_of_nonneg hfl0]
      exact hfw.1
    · rw [hlen, Int.toNat_of_nonneg hfl0]
      exact hfw.2
  · subst hemp
    unfold resample
    split
    · rfl
    · simp [fl_zero]

/-- Witness for `C8_resample_length` at the counterexample's input: 240
samples, 24000 → 44100 Hz (where the length lands on `441 - 1`). -/
theorem C8_resample_length_witness :
    ((24000 : ℕ) ≠ 44100 →
      (resample (List.replicate 240 0) 24000 44100).length =
        (⌊fl (((List.replicate 240 (0:ℚ)).length : ℚ) / fl (((24000:ℕ) : ℚ) / ((44100:ℕ) : ℚ)))⌋).toNat ∧
      ⌊(((List.replicate 240 (0:ℚ)).length : ℚ) * ((44100:ℕ) : ℚ)) / ((24000:ℕ) : ℚ)⌋ - 1 ≤
        ((resample (List.replicate 240 0) 24000 44100).length : ℤ) ∧
      ((resample (List.replicate 240 0) 24000 44100).length : ℤ) ≤
        ⌊(((List.replicate 240 (0:ℚ)).length : ℚ) * ((44100:ℕ) : ℚ)) / ((24000:ℕ) : ℚ)⌋ + 1) ∧
    ((24000 : ℕ) = 44100 → resample (List.replicate 240 0) 24000 44100 = List.replicate 240 0) ∧
    (List.replicate 240 (0:ℚ) = [] → resample (List.replicate 240 0) 24000 44100 = []) :=
  C8_resample_length (List.replicate 240 0) 24000 44100 (by norm_num) (by norm_num)
    (by rw [List.length_replicate]; norm_num)

/-! ## Tool-call dispatch

Source: `GeminiVoiceSessionImpl.handleToolCalls`. The two executors of
`realtimeClientTools` are external collaborators; they are a parameter
(`Tools`), returning `Except e r` so that an executor that throws (rejects)
is representable — the source `await`s them with no `try`/`catch`. The
`response: { result }` object is modelled by its only field. Argument
records are modelled as association lists (their content is only passed
through). JS truthiness of the `id`/`name` guard (`!call.name || !call.id`)
makes `undefined` and the empty string both ineligible. -/

/-- Tool-call argument record (`Record<string, unknown>`), passed through
opaquely. -/
abbrev ToolArgs := List (String × String)

/-- One element of `toolCall.functionCalls`. -/
structure FunctionCall where
  id : Option String
  name : Option String
  args : Option ToolArgs
deriving DecidableEq

/-- One element pushed onto `responses` (its `response` field is the
`result` string wrapped by the source's `{ result }`). -/
structure FunctionResponse where
  id : String
  name : String
  response : String
deriving DecidableEq

/-- The `realtimeClientTools` executor registry; each executor may resolve
(`ok`) or reject (`error`). -/
structure Tools where
  messageClaudeCode : ToolArgs → Except String String
  processPermissionRequest : ToolArgs → Except String String

/-- JS truthiness of an optional string: `undefined` and `""` are falsy. -/
def truthyStr : Option String → Bool
  | none => false
  | some s => !s.isEmpty

/-- Negation of the source's skip guard `if (!call.name || !call.id) continue`. -/
def eligible (c : FunctionCall) : Bool := truthyStr c.name && truthyStr c.id

/-- The call's id as the source uses it past the guard. -/
def idStrOf (c : FunctionCall) : String := c.id.getD ""

/-- The call's name as the source uses it past the guard. -/
def nameStrOf (c : FunctionCall) : String := c.name.getD ""

/-- The source's `call.args ?? {}`. -/
def argsOf (c : FunctionCall) : ToolArgs := c.args.getD []

/-- Whether the name is one of the two registered tools. -/
def recognizedTool (c : FunctionCall) : Bool :=
  nameStrOf c == "messageClaudeCode" || nameStrOf c == "processPermissionRequest"

/-- The `result` computation for one eligible call:
`let result = 'error (unknown tool)'; if (name === 'messageClaudeCode') ... else if ...`. -/
def execCall (tools : Tools) (c : FunctionCall) : Except String String :=
  if nameStrOf c = "messageClaudeCode" then tools.messageClaudeCode (argsOf c)
  else if nameStrOf c = "processPermissionRequest" then
    tools.processPermissionRequest (argsOf c)
  else Except.ok "error (unknown tool)"

/-- The `for (const call of functionCalls)` loop of `handleToolCalls`,
accumulating `responses`; a rejecting executor aborts the whole loop (the
source has no `try`/`catch` around the `await`). -/
def runCalls (tools : Tools) : List FunctionCall → Except String (List FunctionResponse)
  | [] => Except.ok []
  | c :: rest =>
    if eligible c then
      match execCall tools c with
      | Except.error e => Except.error e
      | Except.ok result =>
        match runCalls tools rest with
        | Except.error e => Except.error e
        | Except.ok rs =>
          Except.ok ({ id := idStrOf c, name := nameStrOf c, response := result } :: rs)
    else runCalls tools rest

/-- Source `GeminiVoiceSessionImpl.handleToolCalls`: run the loop, then
`if (responses.length > 0 && this.session) sendToolResponse(...)`; the
boolean of the result records whether a batched response was sent. -/
def handleToolCalls (tools : Tools) (sessionLive : Bool) (calls : List FunctionCall) :
    Except String (List FunctionResponse × Bool) :=
  match runCalls tools calls with
  | Except.error e => Except.error e
  | Except.ok rs => Except.ok (rs, decide (0 < rs.length) && sessionLive)

/-- An executor registry whose executors always resolve. -/
structure TotalTools where
  messageClaudeCode : ToolArgs → String
  processPermissionRequest : ToolArgs → String

/-- View a non-throwing registry as a `Tools`. -/
def TotalTools.lift (tt : TotalTools) : Tools where
  messageClaudeCode := fun a => Except.ok (tt.messageClaudeCode a)
  processPermissionRequest := fun a => Except.ok (tt.processPermissionRequest a)

/-- The response `handleToolCalls` produces for one eligible call under a
non-throwing registry. -/
def mkResponse (tt : TotalTools) (c : FunctionCall) : FunctionResponse where
  id := idStrOf c
  name := nameStrOf c
  response :=
    if nameStrOf c = "messageClaudeCode" then tt.messageClaudeCode (argsOf c)
    else if nameStrOf c = "processPermissionRequest" then
      tt.processPermissionRequest (argsOf c)
    else "error (unknown tool)"

lemma execCall_lift (tt : TotalTools) (c : FunctionCall) :
    execCall tt.lift c = Except.ok (mkResponse tt c).response := by
  unfold execCall mkResponse TotalTools.lift
  split_ifs <;> rfl

/-- Under a non-throwing registry the loop never aborts: it returns exactly
the responses of the eligible calls, in input order. -/
lemma runCalls_lift (tt : TotalTools) (calls : List FunctionCall) :
    runCalls tt.lift calls = Except.ok ((calls.filter eligible).map (mkResponse tt)) := by
  induction calls with
  | nil => rfl
  | cons c rest ih =>
    by_cases h : eligible c = true
    · simp [runCalls, h, execCall_lift, ih, List.filter_cons, mkResponse]
    · simp only [Bool.not_eq_true] at h
      simp [runCalls, h, ih, List.filter_cons]

/-- A registry whose `messageClaudeCode` executor rejects. -/
def throwingTools : Tools where
  messageClaudeCode := fun _ => Except.error "executor exception"
  processPermissionRequest := fun _ => Except.ok "done"

/-- A concrete recognized `messageClaudeCode` call. -/
def mccCall : FunctionCall := { id := some "call-1", name := some "messageClaudeCode", args := none }

/-- A concrete recognized `processPermissionRequest` call. -/
def pprCall : FunctionCall := { id := some "call-2", name := some "processPermissionRequest", args := none }

/-- A concrete call with an unrecognized name. -/
def badCall : FunctionCall := { id := some "call-3", name := some "unknownTool", args := none }

/-- C2, counterexample: When the `messageClaudeCode` executor throws on
the first call of a two-call batch, `handleToolCalls` propagates the
exception: no sentinel result is substituted, the second
(`processPermissionRequest`) call is never executed, no result is produced
for any call, and no batched response is sent — refuting the claim that an
executor exception is caught and converted to a sentinel error result. -/
theorem C2_counterexample :
    handleToolCalls throwingTools true [mccCall, pprCall] =
      Except.error "executor exception" := by
  rfl

/-- C2, amended: An exception thrown by an individual tool executor is
*not* caught: it propagates out of the batch handler, so the remaining
calls of the same batch are not executed and no batched tool response is
sent for that message (the source relies on its executors never
rejecting). -/
theorem C2_executor_exception_propagates (tools : Tools) (live : Bool)
    (c : FunctionCall) (rest : List FunctionCall) (e : String)
    (helig : eligible c = true)
    (hname : nameStrOf c = "messageClaudeCode")
    (hthrow : tools.messageClaudeCode (argsOf c) = Except.error e) :
    handleToolCalls tools live (c :: rest) = Except.error e := by
  simp [handleToolCalls, runCalls, helig, execCall, hname, hthrow]

/-- Witness for `C2_executor_exception_propagates` at a concrete
one-element batch and the rejecting registry. -/
theorem C2_executor_exception_propagates_witness :
    handleToolCalls throwingTools true [mccCall] =
      Except.error "executor exception" :=
  C2_executor_exception_propagates throwingTools true mccCall [] "executor exception"
    (by decide) rfl rfl

/-- C4: For a batch whose calls all carry a (truthy) id and name, with
pairwise distinct ids and executors that resolve: exactly one correlated
result per call is produced, in input order, each id appearing exactly
once; an unrecognized name yields the fixed sentinel `error (unknown tool)`
rather than a dropped call; with a live session exactly one batched
response is sent iff the batch is non-empty (in particular an empty
tool-call list sends nothing). -/
theorem C4_tool_dispatch_complete (tt : TotalTools) (calls : List FunctionCall)
    (hall : ∀ c ∈ calls, eligible c = true)
    (hnd : (calls.map idStrOf).Nodup) :
    handleToolCalls tt.lift true calls =
      Except.ok (calls.map (mkResponse tt), !calls.isEmpty) ∧
      (calls.map (mkResponse tt)).length = calls.length ∧
      ((calls.map (mkResponse tt)).map FunctionResponse.id = calls.map idStrOf) ∧
      (∀ c ∈ calls, ((calls.map (mkResponse tt)).map FunctionResponse.id).count (idStrOf c) = 1) ∧
      (∀ c ∈ calls, recognizedTool c = false →
        (mkResponse tt c).response = "error (unknown tool)") ∧
      handleToolCalls tt.lift true [] = Except.ok ([], false) := by
  have hfilter : calls.filter eligible = calls := List.filter_eq_self.mpr hall
  have hids : (calls.map (mkResponse tt)).map FunctionResponse.id = calls.map idStrOf := by
    rw [List.map_map]
    rfl
  refine ⟨?_, by simp, hids, ?_, ?_, by rfl⟩
  · rw [handleToolCalls, runCalls_lift tt calls, hfilter]
    cases calls <;> simp
  · intro c hc
    rw [hids]
    exact List.count_eq_one_of_mem hnd (List.mem_map_of_mem idStrOf hc)
  · intro c _ hunrec
    unfold mkResponse
    unfold recognizedTool at hunrec
    simp only [Bool.or_eq_false_iff, beq_eq_false_iff_ne, ne_eq] at hunrec
    rw [if_neg hunrec.1, if_neg hunrec.2]

/-- Witness for `C4_tool_dispatch_complete` at a concrete two-call batch,
one recognized and one unrecognized name, under a registry answering
`"ok"`. -/
theorem C4_tool_dispatch_complete_witness :
    handleToolCalls (TotalTools.lift ⟨fun _ => "ok", fun _ => "ok"⟩) true [mccCall, badCall] =
      Except.ok ([mccCall, badCall].map (mkResponse ⟨fun _ => "ok", fun _ => "ok"⟩),
        !([mccCall, badCall] : List FunctionCall).isEmpty) ∧
      ([mccCall, badCall].map (mkResponse ⟨fun _ => "ok", fun _ => "ok"⟩)).length =
        ([mccCall, badCall] : List FunctionCall).length ∧
      (([mccCall, badCall].map (mkResponse ⟨fun _ => "ok", fun _ => "ok"⟩)).map
        FunctionResponse.id = [mccCall, badCall].map idStrOf) ∧
      (∀ c ∈ ([mccCall, badCall] : List FunctionCall),
        (([mccCall, badCall].map (mkResponse ⟨fun _ => "ok", fun _ => "ok"⟩)).map
          FunctionResponse.id).count (idStrOf c) = 1) ∧
      (∀ c ∈ ([mccCall, badCall] : List FunctionCall), recognizedTool c = false →
        (mkResponse ⟨fun _ => "ok", fun _ => "ok"⟩ c).response = "error (unknown tool)") ∧
      handleToolCalls (TotalTools.lift ⟨fun _ => "ok", fun _ => "ok"⟩) true [] =
        Except.ok ([], false) :=
  C4_tool_dispatch_complete ⟨fun _ => "ok", fun _ => "ok"⟩ [mccCall, badCall]
    (by decide) (by decide)

/-- C10: Tool dispatch preserves input order: under a non-throwing
registry the batch result lists exactly the eligible calls (those passing
the truthy id-and-name guard) in their input order, each response carrying
its call's id; the sent flag is set iff some result exists and the session
is live. -/
theorem C10_tool_dispatch_order (tt : TotalTools) (live : Bool)
    (calls : List FunctionCall) :
    handleToolCalls tt.lift live calls =
      Except.ok ((calls.filter eligible).map (mkResponse tt),
        decide (0 < ((calls.filter eligible).map (mkResponse tt)).length) && live) ∧
      ((calls.filter eligible).map (mkResponse tt)).map FunctionResponse.id =
        (calls.filter eligible).map idStrOf := by
  constructor
  · rw [handleToolCalls, runCalls_lift tt calls]
  · rw [List.map_map]
    rfl

/-! ## Inbound server-message handling

Source: `GeminiVoiceSessionImpl.handleServerMessage`. The UI turn mode is
written through `storage.getState().setRealtimeMode`, whose implementation
lives outside the captured sources; it is modelled from the spec below.
The handler walks the message's `serverContent.modelTurn.parts` in order,
playing each inline audio part and publishing `speaking`, then publishes a
non-forced `idle` if `serverContent.turnComplete`, then dispatches
`toolCall.functionCalls` (the dispatch itself is `handleToolCalls` above;
here the handler only forwards the list). -/

/-- The two turn modes of the spec's orthogonal `connected` sub-state. -/
inductive TurnMode
  | idle
  | speaking
deriving DecidableEq

/-- The published turn mode together with the sticky bookkeeping of the
status publisher during one message. -/
structure ModeState where
  mode : TurnMode
  spokeThisMessage : Bool
deriving DecidableEq

/-- Modelled from the spec: `storage.getState().setRealtimeMode` — the
status publisher's `setTurnMode(mode, forced)`, whose implementation is
not among the captured sources. Per the spec, a forced write always
applies (`endSession`/`onclose` pass `forced = true`), and a non-forced
`idle` must not override a `speaking` published during the handling of the
same message: "audio-parts-present wins over turn-complete within one
message". The sticky flag is therefore set by a non-forced `speaking` and
begins each message handling cleared. -/
def setRealtimeMode (st : ModeState) (m : TurnMode) (forced : Bool) : ModeState :=
  if forced then { mode := m, spokeThisMessage := false }
  else
    match m with
    | TurnMode.speaking => { mode := TurnMode.speaking, spokeThisMessage := true }
    | TurnMode.idle => if st.spokeThisMessage then st else { st with mode := TurnMode.idle }

/-- Field `part.inlineData` of a server message part. -/
structure InlineData where
  data : Option String
  mimeType : Option String
deriving DecidableEq

/-- One element of `serverContent.modelTurn.parts`. -/
structure ServerPart where
  inlineData : Option InlineData
deriving DecidableEq

/-- Field `message.serverContent`, with `parts` standing for
`modelTurn?.parts` (absent `modelTurn` and absent `parts` coincide). -/
structure ServerContent where
  parts : Option (List ServerPart)
  turnComplete : Bool
deriving DecidableEq

/-- An inbound `LiveServerMessage`, with `toolCall` standing for
`toolCall?.functionCalls`. -/
structure LiveServerMessage where
  serverContent : Option ServerContent
  toolCall : Option (List FunctionCall)
deriving DecidableEq

/-- Whether `sub` starts `l`, character by character. -/
def charsStartWith : List Char → List Char → Bool
  | _, [] => true
  | [], _ :: _ => false
  | a :: as, b :: bs => a == b && charsStartWith as bs

/-- Whether `sub` occurs contiguously in `l`. -/
def charsContain : List Char → List Char → Bool
  | [], sub => sub.isEmpty
  | a :: as, sub => charsStartWith (a :: as) sub || charsContain as sub

/-- JS `s.includes(sub)`. -/
def strContains (s sub : String) : Bool := charsContain s.toList sub.toList

/-- The source's audio-part guard:
`part.inlineData?.data && part.inlineData.mimeType?.includes('audio')`. -/
def isInlineAudioPart (p : ServerPart) : Bool :=
  match p.inlineData with
  | none => false
  | some d =>
    truthyStr d.data &&
      (match d.mimeType with
       | none => false
       | some mt => strContains mt "audio")

/-- The data string the handler forwards to `audioPlayer.play`. -/
def partData (p : ServerPart) : String :=
  match p.inlineData with
  | some d => d.data.getD ""
  | none => ""

/-- The `for (const part of parts)` loop: each inline audio part is played
and publishes a non-forced `speaking`. Returns the mode state and the
played chunks in order. -/
def processParts : List ServerPart → ModeState → ModeState × List String
  | [], st => (st, [])
  | p :: rest, st =>
    if isInlineAudioPart p then
      let st' := setRealtimeMode st TurnMode.speaking false
      let (st'', plays) := processParts rest st'
      (st'', partData p :: plays)
    else processParts rest st

/-- Source `GeminiVoiceSessionImpl.handleServerMessage`: process audio parts, then
the turn-complete signal (non-forced `idle`), then hand the tool calls to
dispatch. Returns the final mode state, the played chunks, and the
dispatched tool calls. Each message's handling starts with the sticky
flag cleared (its scope is one message). -/
def handleServerMessage (msg : LiveServerMessage) (mode : TurnMode) :
    ModeState × List String × List FunctionCall :=
  let st0 : ModeState := { mode := mode, spokeThisMessage := false }
  let stepParts :=
    match msg.serverContent with
    | some sc =>
      match sc.parts with
      | some ps => processParts ps st0
      | none => (st0, [])
    | none => (st0, [])
  let st2 :=
    match msg.serverContent with
    | some sc =>
      if sc.turnComplete then setRealtimeMode stepParts.1 TurnMode.idle false
      else stepParts.1
    | none => stepParts.1
  let dispatched :=
    match msg.toolCall with
    | some calls => calls
    | none => []
  (st2, stepParts.2, dispatched)

lemma processParts_preserve {ps : List ServerPart} {st : ModeState}
    (h1 : st.mode = TurnMode.speaking) (h2 : st.spokeThisMessage = true) :
    (processParts ps st).1.mode = TurnMode.speaking ∧
      (processParts ps st).1.spokeThisMessage = true := by
  induction ps generalizing st with
  | nil => exact ⟨h1, h2⟩
  | cons p rest ih =>
    by_cases hp : isInlineAudioPart p = true
    · simp only [processParts, hp, if_true]
      exact ih rfl rfl
    · simp only [Bool.not_eq_true] at hp
      simp only [processParts, hp, Bool.false_eq_true, if_false]
      exact ih h1 h2

lemma processParts_audio_mem {ps : List ServerPart} {p : ServerPart} {st : ModeState}
    (hp : p ∈ ps) (haudio : isInlineAudioPart p = true) :
    (processParts ps st).1.mode = TurnMode.speaking ∧
      (processParts ps st).1.spokeThisMessage = true := by
  induction ps generalizing st with
  | nil => cases hp
  | cons q rest ih =>
    by_cases hq : isInlineAudioPart q = true
    · simp only [processParts, hq, if_true]
      exact processParts_preserve rfl rfl
    · have hmem : p ∈ rest := by
        cases List.mem_cons.mp hp with
        | inl he => exact absurd (he ▸ haudio) hq
        | inr hm => exact hm
      simp only [Bool.not_eq_true] at hq
      simp only [processParts, hq, Bool.false_eq_true, if_false]
      exact ih hmem

/-- C1: For every inbound server message containing at least one inline
audio part and also signalling turn completion, after the message is fully
handled the published turn mode is `speaking`: the non-forced `idle` from
the turn-completion signal does not override the `speaking` published for
the audio parts of the same message. (spec-modelled: the sticky semantics
of `setRealtimeMode` live outside the captured sources.) -/
theorem C1_audio_wins_over_turn_complete (msg : LiveServerMessage) (mode : TurnMode)
    (sc : ServerContent) (ps : List ServerPart) (p : ServerPart)
    (hsc : msg.serverContent = some sc) (hps : sc.parts = some ps)
    (hmem : p ∈ ps) (haudio : isInlineAudioPart p = true)
    (htc : sc.turnComplete = true) :
    (handleServerMessage msg mode).1.mode = TurnMode.speaking := by
  have h := @processParts_audio_mem ps p { mode := mode, spokeThisMessage := false }
    hmem haudio
  unfold handleServerMessage
  simp only [hsc, hps, htc, if_true]
  simp only [setRealtimeMode, h.2, Bool.false_eq_true, if_false, if_true]
  exact h.1

/-- A concrete inline audio part. -/
def audioPart : ServerPart :=
  { inlineData := some { data := some "UENN", mimeType := some "audio/pcm;rate=24000" } }

/-- Witness for `C1_audio_wins_over_turn_complete`: a message with one
inline audio part and `turnComplete: true`, handled from turn mode
`idle`. -/
theorem C1_audio_wins_over_turn_complete_witness :
    (handleServerMessage
      { serverContent := some { parts := some [audioPart], turnComplete := true },
        toolCall := none } TurnMode.idle).1.mode = TurnMode.speaking :=
  C1_audio_wins_over_turn_complete
    { serverContent := some { parts := some [audioPart], turnComplete := true },
      toolCall := none }
    TurnMode.idle
    { parts := some [audioPart], turnComplete := true }
    [audioPart] audioPart rfl rfl (by decide) (by decide) rfl

/-! ## Session start

Source: `GeminiVoiceSessionImpl.startSession`. The collaborators it awaits
(player start, capture start — which is what acquires the microphone — and
the transport connect) are a parameter: each either resolves or rejects,
and the embedding records the observable effects in order. The `onopen`/
`onmessage`/... connection callbacks fire only after `startSession`
returns and are not part of this synchronous path. -/

/-- The published connection status values. -/
inductive ConnStatus
  | connecting
  | connected
  | error
  | disconnected
deriving DecidableEq

/-- Observable effects of `startSession`, in program order. `captureStart`
is the step that acquires the microphone. -/
inductive SessionEvent
  | setStatus (s : ConnStatus)
  | playerStart
  | playerStop
  | captureStart
  | captureStop
  | connectAttempt
  | sendInitialContext
deriving DecidableEq

/-- The error `startSession` rethrows, tagged by its origin. -/
inductive StartError
  | config (msg : String)
  | player (msg : String)
  | capture (msg : String)
  | connect (msg : String)
deriving DecidableEq

/-- The configuration and collaborator outcomes `startSession` runs
against. -/
structure StartEnv where
  geminiApiKey : Option String
  playerStartResult : Except String Unit
  captureStartResult : Except String Unit
  connectResult : Except String Unit
  initialContext : Option String

/-- Source `GeminiVoiceSessionImpl.startSession`: status `connecting`; fail fast
with no audio side effects if the API key is falsy; start the player
(unguarded await); start capture in a `try` that on failure stops the
player, publishes `error` and rethrows; connect in a `try` that on failure
stops capture and player, publishes `error` and rethrows; on success send
the initial context as a completed turn when one is configured. -/
def startSession (env : StartEnv) : List SessionEvent × Except StartError Unit :=
  let evs := [SessionEvent.setStatus ConnStatus.connecting]
  if !truthyStr env.geminiApiKey then
    (evs ++ [SessionEvent.setStatus ConnStatus.error],
      Except.error (StartError.config "Gemini API key not configured"))
  else
    match env.playerStartResult with
    | Except.error e => (evs ++ [SessionEvent.playerStart], Except.error (StartError.player e))
    | Except.ok _ =>
      let evs := evs ++ [SessionEvent.playerStart]
      match env.captureStartResult with
      | Except.error e =>
        (evs ++ [SessionEvent.captureStart, SessionEvent.playerStop,
          SessionEvent.setStatus ConnStatus.error],
          Except.error (StartError.capture e))
      | Except.ok _ =>
        let evs := evs ++ [SessionEvent.captureStart]
        match env.connectResult with
        | Except.error e =>
          (evs ++ [SessionEvent.connectAttempt, SessionEvent.captureStop,
            SessionEvent.playerStop, SessionEvent.setStatus ConnStatus.error],
            Except.error (StartError.connect e))
        | Except.ok _ =>
          let evs := evs ++ [SessionEvent.connectAttempt]
          match env.initialContext with
          | some _ => (evs ++ [SessionEvent.sendInitialContext], Except.ok ())
          | none => (evs, Except.ok ())

/-- C7: `startSession` with no configured API key fails fast: it
publishes `connecting` then `error` and nothing else, raises the
configuration error (`'Gemini API key not configured'`), and neither
acquires the microphone (`captureStart`) nor starts any audio pipeline
(`playerStart`). -/
theorem C7_no_api_key_fails_fast (env : StartEnv)
    (hkey : truthyStr env.geminiApiKey = false) :
    startSession env =
      ([SessionEvent.setStatus ConnStatus.connecting,
        SessionEvent.setStatus ConnStatus.error],
        Except.error (StartError.config "Gemini API key not configured")) ∧
      SessionEvent.captureStart ∉ (startSession env).1 ∧
      SessionEvent.playerStart ∉ (startSession env).1 := by
  have heq : startSession env =
      ([SessionEvent.setStatus ConnStatus.connecting,
        SessionEvent.setStatus ConnStatus.error],
        Except.error (StartError.config "Gemini API key not configured")) := by
    unfold startSession
    rw [hkey]
    rfl
  refine ⟨heq, ?_, ?_⟩ <;> rw [heq] <;> decide

/-- An environment with no API key configured and all collaborators
healthy. -/
def noKeyEnv : StartEnv where
  geminiApiKey := none
  playerStartResult := Except.ok ()
  captureStartResult := Except.ok ()
  connectResult := Except.ok ()
  initialContext := none

/-- Witness for `C7_no_api_key_fails_fast` at `noKeyEnv`. -/
theorem C7_no_api_key_fails_fast_witness :
    startSession noKeyEnv =
      ([SessionEvent.setStatus ConnStatus.connecting,
        SessionEvent.setStatus ConnStatus.error],
        Except.error (StartError.config "Gemini API key not configured")) ∧
      SessionEvent.captureStart ∉ (startSession noKeyEnv).1 ∧
      SessionEvent.playerStart ∉ (startSession noKeyEnv).1 :=
  C7_no_api_key_fails_fast noKeyEnv rfl

/-! ## Native capture poll loop

Source: `createAudioCapture` in
`sources/realtime/audio/capture.native.ts`. The pipeline records short
segments and polls every 200 ms: each tick stops the current segment,
reads its contents (emitting the data callback when non-empty), deletes
the temp file, and starts the next segment; the whole tick body is a
`try` whose `catch` invokes `onError` when not stopped. One invocation of
the interval callback is modelled as `pollTick`, parameterized by which
awaited steps reject. -/

/-- The mutable closure state of `createAudioCapture` that the tick reads:
the `stopped` flag and whether `recording` is non-null. -/
structure CapState where
  stopped : Bool
  hasRecording : Bool
deriving DecidableEq

/-- Observable callbacks of the capture pipeline. -/
inductive CapEvent
  | data (base64 : String)
  | error
deriving DecidableEq

/-- Environment of one poll tick: which awaited steps reject, and what the
segment file holds. -/
structure PollTickEnv where
  stopThrows : Bool
  uri : Option String
  readThrows : Bool
  base64 : String
  restartThrows : Bool
deriving DecidableEq

/-- One invocation of the 200 ms interval callback. Faithful to the
source: the `catch` only calls `onError` (when not stopped) — it neither
sets `stopped`, nor clears the interval, nor nulls `recording`; the next
segment's recorder is assigned before the steps that can reject, so
`recording` stays non-null on every path. -/
def pollTick (env : PollTickEnv) (st : CapState) : CapState × List CapEvent :=
  if st.stopped || !st.hasRecording then (st, [])
  else if env.stopThrows then (st, [CapEvent.error])
  else
    match env.uri with
    | none =>
      if env.restartThrows then (st, [CapEvent.error])
      else (st, [])
    | some _ =>
      if env.readThrows then (st, [CapEvent.error])
      else
        let dataEvs := if env.base64.length > 0 then [CapEvent.data env.base64] else []
        if env.restartThrows then (st, dataEvs ++ [CapEvent.error])
        else (st, dataEvs)

/-- A sequence of poll ticks, collecting the emitted callbacks in order. -/
def runPollTicks : List PollTickEnv → CapState → CapState × List CapEvent
  | [], st => (st, [])
  | e :: rest, st =>
    let step := pollTick e st
    let next := runPollTicks rest step.1
    (next.1, step.2 ++ next.2)

/-- The state of a capture session whose `start()` succeeded. -/
def runningCap : CapState := { stopped := false, hasRecording := true }

/-- A tick whose `currentRecording.stop()` rejects (stream fault). -/
def failTick : PollTickEnv :=
  { stopThrows := true, uri := none, readThrows := false, base64 := "", restartThrows := false }

/-- A healthy tick delivering one non-empty chunk. -/
def okTick : PollTickEnv :=
  { stopThrows := false, uri := some "cache:segment", readThrows := false,
    base64 := "UENN", restartThrows := false }

/-- C3, counterexample: From the `running` state, two consecutive
faulting poll ticks followed by a healthy one invoke the error callback
twice (not at most once), leave the pipeline running (`stopped` stays
`false`, not a transition to `stopped`), and invoke the data callback
again after the errors — all three parts of the claim fail. -/
theorem C3_counterexample :
    runPollTicks [failTick, failTick, okTick] runningCap =
      (runningCap, [CapEvent.error, CapEvent.error, CapEvent.data "UENN"]) := by
  rfl

/-- C3, amended: A capture error while running invokes the error
callback once for that poll cycle but neither transitions the pipeline to
`stopped` nor prevents later callbacks: the state is unchanged, so a
repeat of the faulting cycle invokes the error callback again (and a later
healthy cycle delivers data again); only an explicit `stop()` halts the
loop. -/
theorem C3_error_repeats_not_stopped (env : PollTickEnv) (st : CapState)
    (hrun : st.stopped = false) (hrec : st.hasRecording = true)
    (hthrow : env.stopThrows = true) :
    pollTick env st = (st, [CapEvent.error]) ∧
      pollTick env (pollTick env st).1 = (st, [CapEvent.error]) := by
  have h1 : pollTick env st = (st, [CapEvent.error]) := by
    unfold pollTick
    rw [hrun, hrec, hthrow]
    rfl
  exact ⟨h1, by rw [h1]; exact h1⟩

/-- Witness for `C3_error_repeats_not_stopped` at the concrete faulting
tick from the running state. -/
theorem C3_error_repeats_not_stopped_witness :
    pollTick failTick runningCap = (runningCap, [CapEvent.error]) ∧
      pollTick failTick (pollTick failTick runningCap).1 =
        (runningCap, [CapEvent.error]) :=
  C3_error_repeats_not_stopped failTick runningCap rfl rfl rfl

end Happy
